import Mathlib

/-!
Verification of the recency-matching core of `recent.go`.

The Go source is shallowly embedded here:
* machine integers (`uint`, `time.Duration = int64` nanoseconds) are modelled
  as `Nat` / `Int` with explicit reduction modulo `2^64` where overflow can
  occur;
* the path helpers from `path/filepath` (`Base`, `Clean`, `Join`, Unix rules)
  that the program calls are embedded as executable functions on `List Char`;
* the `Matcher` methods (`dostat`, `Match`, `Readdir`) become pure functions
  producing the list of emitted/logged events, with the filesystem primitives
  (`os.Stat`, `os.Open` + paged `Readdir`) abstracted as function arguments.
-/

set_option maxRecDepth 4000

namespace Recent

/-! ## Duration accumulator (`overflowCheck`, `allZero`, `toDuration`) -/

/-- `2^63` as an integer, the first value not representable in `int64`. -/
def two63 : Int := 9223372036854775808

/-- `2^64` as an integer. -/
def two64 : Int := 18446744073709551616

/-- `2^64` as a natural number, the modulus of Go's 64-bit `uint`. -/
def u64Mod : Nat := 18446744073709551616

/-- Reduce an integer into the signed two's-complement 64-bit range
`[-2^63, 2^63)`, the semantics of Go's wrapping `int64` arithmetic and of
the `uint → time.Duration` conversion. -/
def wrap64 (n : Int) : Int := (n + two63) % two64 - two63

/-- Embedding of `overflowCheck` (recent.go lines 189-201), returning `true`
when the check passes (no `log.Fatal`).  The five arguments are the parsed
`uint` flag values (each below `2^64`).  Go computes
`y + M + d + h + m > 290` in `uint` arithmetic, so every addition wraps
modulo `2^64`; the chained `% u64Mod` below mirrors the left-associated
wrapping sum. -/
def overflowCheckOk (years months days hours minutes : Nat) : Bool :=
  let y := years
  let M := months / 12
  let d := days / 365
  let h := hours / (24 * 365)
  let m := minutes / (60 * 24 * 365)
  decide ((((((y + M) % u64Mod + d) % u64Mod + h) % u64Mod + m) % u64Mod) ≤ 290)

/-- Embedding of `allZero` (recent.go lines 203-210): the Go loop returns
`false` on the first nonzero entry, `true` otherwise. -/
def allZero (xs : List Nat) : Bool := xs.all (fun x => x == 0)

/-- Embedding of `toDuration` (recent.go lines 212-225).  `time.Duration` is
`int64` nanoseconds; `time.Hour = 3600e9`, `time.Minute = 60e9`, and the
constants `day`, `month`, `year` are compile-time products that fit in
`int64`.  Each `uint → Duration` conversion and each multiplication /
addition is wrapping 64-bit arithmetic, hence the `wrap64` at every step,
in the exact order of the Go statements. -/
def toDuration (years months days hours mins : Nat) : Int :=
  let hour : Int := 3600000000000
  let minute : Int := 60000000000
  let day : Int := 24 * hour
  let month : Int := 30 * day
  let year : Int := 365 * day
  let d := wrap64 (year * wrap64 (years : Int))
  let d := wrap64 (d + wrap64 (month * wrap64 (months : Int)))
  let d := wrap64 (d + wrap64 (day * wrap64 (days : Int)))
  let d := wrap64 (d + wrap64 (hour * wrap64 (hours : Int)))
  let d := wrap64 (d + wrap64 (minute * wrap64 (mins : Int)))
  d

/-- The year-equivalent sum exactly as the spec states it: exact
natural-number arithmetic with floor division and no wraparound.  This is
the spec's reference formula, declared separately from the source-faithful
`overflowCheckOk` so the two can be compared. -/
def specYearEquivalentSum (years months days hours minutes : Nat) : Nat :=
  years + months / 12 + days / 365 + hours / (24 * 365) + minutes / (60 * 24 * 365)

/-- Embedding of the default-substitution in `main` (recent.go lines
327-334): if all five counts are zero, `*days` is set to `1` before
`toDuration` is invoked; the resulting duration is the matcher's
threshold. -/
def effectiveRecent (years months days hours mins : Nat) : Int :=
  if allZero [years, months, days, hours, mins] then
    toDuration years months 1 hours mins
  else
    toDuration years months days hours mins

/-! ## Path helpers (`path/filepath`, Unix rules)

`dostat` calls `filepath.Base`, `filepath.Clean` and `filepath.Join`.
These are embedded as structural recursions over `List Char` so that they
evaluate by kernel reduction. -/

/-- Split a character list on `'/'`; boundary separators and runs of
separators produce empty components, exactly like splitting a Go string on
every separator byte. -/
def splitSlash : List Char → List (List Char)
  | [] => [[]]
  | c :: rest =>
    let r := splitSlash rest
    if c == '/' then [] :: r
    else
      match r with
      | [] => [[c]]
      | h :: t => (c :: h) :: t

/-- Interleave `'/'` between components (the inverse of `splitSlash` on
canonical output). -/
def joinSlash : List (List Char) → List Char
  | [] => []
  | [x] => x
  | x :: xs => x ++ '/' :: joinSlash xs

/-- One step of `filepath.Clean`'s element processing.  `acc` is the stack
of kept components, most recent first.  Empty and `"."` components are
dropped; `".."` pops a poppable component, is kept at the head of a
relative path, and is dropped at the root of a rooted path; everything
else is pushed. -/
def cleanStep (rooted : Bool) (acc : List (List Char)) (c : List Char) : List (List Char) :=
  if c = [] ∨ c = ['.'] then acc
  else if c = ['.', '.'] then
    match acc with
    | [] => if rooted then [] else [['.', '.']]
    | a :: rest => if a = ['.', '.'] then c :: a :: rest else rest
  else c :: acc

/-- `filepath.Clean` (Unix) on a character list: the empty path cleans to
`"."`; otherwise process the slash-separated elements with `cleanStep` and
reassemble, restoring the leading `'/'` for rooted paths and producing
`"."` when a relative path cleans away entirely. -/
def cleanChars (l : List Char) : List Char :=
  match l with
  | [] => ['.']
  | c :: _ =>
    let rooted := c == '/'
    let comps := ((splitSlash l).foldl (cleanStep rooted) []).reverse
    if rooted then '/' :: joinSlash comps
    else if comps = [] then ['.'] else joinSlash comps

/-- Embedding of `filepath.Clean` (Unix; `FromSlash` is the identity). -/
def goClean (s : String) : String := String.mk (cleanChars s.toList)

/-- Embedding of `filepath.Join` for two elements: Go skips leading empty
elements, joins the rest with `'/'` and cleans the result, returning `""`
when every element is empty. -/
def goJoin (a b : String) : String :=
  if a = "" then (if b = "" then "" else goClean b)
  else goClean (String.mk (a.toList ++ '/' :: b.toList))

/-- Embedding of `filepath.Base` (Unix): `""` gives `"."`; otherwise strip
trailing separators, take the suffix after the last separator, and answer
`"/"` if nothing remains. -/
def goBase (s : String) : String :=
  if s = "" then "."
  else
    let r := s.toList.reverse.dropWhile (fun c => c == '/')
    let q := (r.takeWhile (fun c => c != '/')).reverse
    if q = [] then "/" else String.mk q

/-- The dot test from `dostat` line 242: `filepath.Base(name)[0] == '.'`.
`goBase` never returns the empty string (proved below), so reading the
first character with a fallback is faithful to Go's byte indexing. -/
def startsWithDotBase (name : String) : Bool :=
  (goBase name).toList.headD ' ' == '.'

/-! ## The recency matcher (`Matcher`, `dostat`, `Match`, `Readdir`)

Times are `int64` nanoseconds modelled as `Int`.  The two output callbacks
`Out` / `Log` are modelled by returning the ordered list of events each
operation produces.  `os.Stat` is abstracted as a function
`String → Except String FileInfo`; a directory is abstracted as the list of
paged `Readdir(100)` results, each a batch of entries together with the
error value returned alongside it (`nil`, `io.EOF`, or a real error). -/

/-- The fields of `os.FileInfo` the program consults: `ModTime()` (as
`int64` nanoseconds) and `IsDir()`. -/
structure FileInfo where
  modTime : Int
  isDir : Bool
deriving Repr, DecidableEq

/-- An observable action of the matcher: either `m.Out(name)` or
`m.Log(err)`. -/
inductive Event where
  | out (name : String)
  | log (err : String)
deriving Repr, DecidableEq

/-- The error value accompanying one `File.Readdir(100)` call: `nil`
(more entries follow), `io.EOF` (clean end, not reported), or a real
error. -/
inductive ReadErr where
  | ok
  | eof
  | fail (e : String)
deriving Repr, DecidableEq

/-- One paged read result: the returned batch of entries (name and
metadata) and the accompanying error value. -/
abbrev ReadBatch := List (String × FileInfo) × ReadErr

/-- Abstract `os.Stat`. -/
abbrev StatFn := String → Except String FileInfo

/-- Abstract `os.Open` on a directory: an open failure, or the full page
sequence its handle will yield. -/
abbrev DirFn := String → Except String (List ReadBatch)

/-- The `Matcher` configuration (recent.go lines 229-239) minus the two
callbacks, which are modelled by the returned event lists. -/
structure Matcher where
  invert : Bool
  includeDots : Bool
  noSlash : Bool
  recent : Int
  now : Int
deriving Repr, DecidableEq

/-- The hit computation from `dostat` lines 246-249:
`hit := m.Now.Sub(fi.ModTime()) < m.Recent`, negated when `Invert` is
set. -/
def hitOf (invert : Bool) (elapsed recent : Int) : Bool :=
  let hit := decide (elapsed < recent)
  if invert then !hit else hit

/-- Embedding of `Matcher.dostat` (recent.go lines 241-258): skip
dot-prefixed base names unless `skipdotcheck` or `IncludeDots`; otherwise
classify, and on a hit emit `Clean(Join(pre, name))` with a trailing `"/"`
for directories unless `NoSlash`. -/
def Matcher.dostat (m : Matcher) (skipdotcheck : Bool) (pre name : String)
    (fi : FileInfo) : List Event :=
  if !skipdotcheck && !m.includeDots && startsWithDotBase name then []
  else
    let hit := hitOf m.invert (m.now - fi.modTime) m.recent
    if hit then
      let name1 := goClean (goJoin pre name)
      let name2 := if fi.isDir && !m.noSlash then name1 ++ "/" else name1
      [Event.out name2]
    else []

/-- The page-consuming loop of `Matcher.Readdir` (recent.go lines
285-296): classify every entry of the batch, then continue on a `nil`
error, stop silently on `io.EOF`, and log-and-stop on any other error. -/
def Matcher.readdirLoop (m : Matcher) (dname : String) : List ReadBatch → List Event
  | [] => []
  | (fis, re) :: rest =>
    let evs := fis.flatMap (fun p => m.dostat false dname p.1 p.2)
    match re with
    | ReadErr.ok => evs ++ m.readdirLoop dname rest
    | ReadErr.eof => evs
    | ReadErr.fail e => evs ++ [Event.log e]

/-- Embedding of `Matcher.Readdir` (recent.go lines 278-297): log and
return on open failure, otherwise drain the handle. -/
def Matcher.Readdir (m : Matcher) (dr : DirFn) (dname : String) : List Event :=
  match dr dname with
  | Except.error e => [Event.log e]
  | Except.ok batches => m.readdirLoop dname batches

/-- Embedding of `Matcher.Match` (recent.go lines 261-275): for each named
file, log a stat failure and continue; scan a directory argument; classify
a non-directory argument with `skipdotcheck = true` and an empty prefix. -/
def Matcher.Match (m : Matcher) (st : StatFn) (dr : DirFn) : List String → List Event
  | [] => []
  | file :: rest =>
    (match st file with
      | Except.error e => [Event.log e]
      | Except.ok fi =>
        if fi.isDir then m.Readdir dr file
        else m.dostat true "" file fi)
    ++ m.Match st dr rest

/-! ## Helper lemmas about wrapping arithmetic -/

theorem wrap64_congr {a b : Int} (h : a % two64 = b % two64) : wrap64 a = wrap64 b := by
  unfold wrap64
  rw [Int.add_emod a two63 two64, h, ← Int.add_emod b two63 two64]

theorem wrap64_emod (a : Int) : wrap64 a % two64 = a % two64 := by
  unfold wrap64 two63 two64
  omega

theorem wrap64_eq_self {a : Int} (h0 : 0 ≤ a) (h1 : a < two63) : wrap64 a = a := by
  unfold wrap64 two63 two64 at *
  omega

theorem wrap64_mulR (a b : Int) : wrap64 (a * wrap64 b) = wrap64 (a * b) := by
  apply wrap64_congr
  rw [Int.mul_emod a (wrap64 b) two64, wrap64_emod, ← Int.mul_emod a b two64]

theorem wrap64_add_add (a b : Int) : wrap64 (wrap64 a + wrap64 b) = wrap64 (a + b) := by
  apply wrap64_congr
  rw [Int.add_emod (wrap64 a) (wrap64 b) two64, wrap64_emod, wrap64_emod,
    ← Int.add_emod a b two64]

/-- `toDuration` computes the exact sum of products, reduced once into the
signed 64-bit range. -/
theorem toDuration_eq_wrap (y mo d h mi : Nat) :
    toDuration y mo d h mi =
      wrap64 (31536000000000000 * (y : Int) + 2592000000000000 * (mo : Int)
        + 86400000000000 * (d : Int) + 3600000000000 * (h : Int)
        + 60000000000 * (mi : Int)) := by
  simp only [toDuration, wrap64_mulR, wrap64_add_add]
  norm_num

/-! ## Claim C1 -/

/-- C1: the claim states that every input accepted by the overflow guard
yields a duration of at most ~290 years that does not overflow signed
64-bit nanosecond arithmetic.  This is false: the guard drops the
sub-year remainder of each unit, so `290y 11mo 364d 8759h 525599min` is
accepted (its year-equivalent sum is exactly 290) although its exact
duration is 9268469940000000000 ns ≈ 293.9 years, which exceeds
`int64` max 9223372036854775807; the assembled `time.Duration` wraps to a
negative value. -/
theorem overflow_guard_admits_int64_overflow :
    overflowCheckOk 290 11 364 8759 525599 = true ∧
    (31536000000000000 * 290 + 2592000000000000 * 11 + 86400000000000 * 364
      + 3600000000000 * 8759 + 60000000000 * 525599 : Int) > 9223372036854775807 ∧
    toDuration 290 11 364 8759 525599 < 0 := by
  refine ⟨by decide, by decide, by decide⟩

/-! ## Claim C2 -/

/-- C2: the claim states that the guard fails exactly when the
year-equivalent sum `years + months/12 + days/365 + hours/(24*365) +
minutes/(60*24*365)` exceeds 290.  This is false on the code: the sum is
computed in Go `uint` arithmetic, which wraps modulo `2^64`.  At
`years = 2^64 - 1, months = 12` the mathematical sum is `2^64 > 290`, so
the claim requires a fatal failure, yet the wrapped sum is `0 ≤ 290` and
the guard accepts. -/
theorem overflow_guard_wraps_at_uint_boundary :
    specYearEquivalentSum 18446744073709551615 12 0 0 0 > 290 ∧
    overflowCheckOk 18446744073709551615 12 0 0 0 = true := by
  refine ⟨by decide, by decide⟩

/-! ## Claim C5 -/

/-- C5 (counterexample): the claim that the assembled duration always
equals `years*365*86400s + ...` fails at `years = 300`: the exact product
9460800000000000000 ns exceeds `int64` range and the duration wraps. -/
theorem toDuration_not_sum_at_300_years :
    ¬ (toDuration 300 0 0 0 0 = (31536000000000000 * 300 : Int)) := by
  decide

/-- C5 (amended): the assembled duration equals the exact sum of each
count times its fixed conversion factor reduced modulo `2^64` into the
signed 64-bit range; in particular it equals the exact sum whenever that
sum is below `2^63` nanoseconds. -/
theorem toDuration_sum_of_products (y mo d h mi : Nat) :
    toDuration y mo d h mi =
      wrap64 ((31536000000000000 * y + 2592000000000000 * mo + 86400000000000 * d
        + 3600000000000 * h + 60000000000 * mi : Nat) : Int) ∧
    ((31536000000000000 * y + 2592000000000000 * mo + 86400000000000 * d
        + 3600000000000 * h + 60000000000 * mi : Nat) < 9223372036854775808 →
      toDuration y mo d h mi =
        ((31536000000000000 * y + 2592000000000000 * mo + 86400000000000 * d
          + 3600000000000 * h + 60000000000 * mi : Nat) : Int)) := by
  have hgen := toDuration_eq_wrap y mo d h mi
  have hcast : ((31536000000000000 * y + 2592000000000000 * mo + 86400000000000 * d
      + 3600000000000 * h + 60000000000 * mi : Nat) : Int)
      = 31536000000000000 * (y : Int) + 2592000000000000 * (mo : Int)
        + 86400000000000 * (d : Int) + 3600000000000 * (h : Int)
        + 60000000000 * (mi : Int) := by
    push_cast
    ring
  constructor
  · rw [hgen, hcast]
  · intro hS
    rw [hgen, ← hcast]
    apply wrap64_eq_self
    · exact Int.natCast_nonneg _
    · unfold two63
      exact_mod_cast hS

/-- C5 (witness): at one day the sum fits and the duration is exact. -/
theorem toDuration_sum_of_products_witness :
    (31536000000000000 * 0 + 2592000000000000 * 0 + 86400000000000 * 1
      + 3600000000000 * 0 + 60000000000 * 0 : Nat) < 9223372036854775808 ∧
    toDuration 0 0 1 0 0 =
      ((31536000000000000 * 0 + 2592000000000000 * 0 + 86400000000000 * 1
        + 3600000000000 * 0 + 60000000000 * 0 : Nat) : Int) :=
  ⟨by decide, (toDuration_sum_of_products 0 0 1 0 0).2 (by decide)⟩

/-! ## Claim C6 -/

/-- C6: when all five counts are zero, `main` substitutes one day before
invoking the accumulator, so the effective threshold is exactly 86400
seconds (86400000000000 ns). -/
theorem default_threshold_one_day (y mo d h mi : Nat)
    (hz : allZero [y, mo, d, h, mi] = true) :
    effectiveRecent y mo d h mi = 86400000000000 := by
  have hzs : y = 0 ∧ mo = 0 ∧ d = 0 ∧ h = 0 ∧ mi = 0 := by
    simpa [allZero] using hz
  obtain ⟨rfl, rfl, rfl, rfl, rfl⟩ := hzs
  decide

/-- C6 (witness). -/
theorem default_threshold_one_day_witness :
    allZero [0, 0, 0, 0, 0] = true ∧ effectiveRecent 0 0 0 0 0 = 86400000000000 :=
  ⟨by decide, default_threshold_one_day 0 0 0 0 0 (by decide)⟩

/-! ## Helper lemmas about `goBase` and `dostat` -/

theorem goBase_toList_ne_nil (s : String) : (goBase s).toList ≠ [] := by
  simp only [goBase]
  split_ifs with h1 h2
  · decide
  · decide
  · intro hcon
    exact h2 hcon

/-- The display string `dostat` emits for an entry. -/
def displayOf (m : Matcher) (pre name : String) (fi : FileInfo) : String :=
  if fi.isDir && !m.noSlash then goClean (goJoin pre name) ++ "/"
  else goClean (goJoin pre name)

/-- `dostat` produces either nothing, or exactly one emitted display
name. -/
theorem dostat_eq_nil_or (m : Matcher) (skip : Bool) (pre name : String) (fi : FileInfo) :
    m.dostat skip pre name fi = [] ∨
    m.dostat skip pre name fi = [Event.out (displayOf m pre name fi)] := by
  rw [Matcher.dostat]
  by_cases hd : (!skip && !m.includeDots && startsWithDotBase name) = true
  · left
    simp [hd]
  · by_cases hh : hitOf m.invert (m.now - fi.modTime) m.recent = true
    · right
      simp only [Bool.not_eq_true] at hd
      simp [hd, hh, displayOf]
    · left
      simp only [Bool.not_eq_true] at hd hh
      simp [hd, hh]

theorem out_mem_dostat {m : Matcher} {skip : Bool} {pre name s : String} {fi : FileInfo}
    (h : Event.out s ∈ m.dostat skip pre name fi) : s = displayOf m pre name fi := by
  rcases dostat_eq_nil_or m skip pre name fi with he | he <;> rw [he] at h
  · simp at h
  · simpa using h

theorem log_not_mem_dostat {m : Matcher} {skip : Bool} {pre name e : String} {fi : FileInfo} :
    Event.log e ∉ m.dostat skip pre name fi := by
  intro h
  rcases dostat_eq_nil_or m skip pre name fi with he | he <;> rw [he] at h <;> simp at h

/-- Every name emitted while draining a directory handle comes from an
entry of one of its batches, displayed under the scanned directory's path
as prefix. -/
theorem out_mem_readdirLoop {m : Matcher} {dn s : String} {bs : List ReadBatch}
    (hs : Event.out s ∈ m.readdirLoop dn bs) :
    ∃ batch, batch ∈ bs ∧ ∃ nm fi2, (nm, fi2) ∈ batch.1 ∧ s = displayOf m dn nm fi2 := by
  induction bs with
  | nil => simp [Matcher.readdirLoop] at hs
  | cons hd tl ih =>
    obtain ⟨fis, re⟩ := hd
    simp only [Matcher.readdirLoop] at hs
    cases re with
    | ok =>
      simp only [List.mem_append] at hs
      rcases hs with hs | hs
      · simp only [List.mem_flatMap] at hs
        obtain ⟨p, hp, hmem⟩ := hs
        exact ⟨(fis, ReadErr.ok), List.mem_cons_self _ _, p.1, p.2, hp, out_mem_dostat hmem⟩
      · obtain ⟨batch, hb, rest⟩ := ih hs
        exact ⟨batch, List.mem_cons_of_mem _ hb, rest⟩
    | eof =>
      simp only [List.mem_flatMap] at hs
      obtain ⟨p, hp, hmem⟩ := hs
      exact ⟨(fis, ReadErr.eof), List.mem_cons_self _ _, p.1, p.2, hp, out_mem_dostat hmem⟩
    | fail e =>
      simp only [List.mem_append] at hs
      rcases hs with hs | hs
      · simp only [List.mem_flatMap] at hs
        obtain ⟨p, hp, hmem⟩ := hs
        exact ⟨(fis, ReadErr.fail e), List.mem_cons_self _ _, p.1, p.2, hp, out_mem_dostat hmem⟩
      · simp at hs

/-! ## Claim C3 -/

/-- C3: for every entry that reaches classification (the dot filter does
not apply), the entry is a hit iff `elapsed < threshold` without `Invert`
and iff `elapsed ≥ threshold` with `Invert`; exactly one of the two
conditions holds, so `Invert` exactly flips the hit set, and `dostat`
emits a name exactly when the hit condition holds. -/
theorem classification_rule (m : Matcher) (skip : Bool) (pre name : String)
    (fi : FileInfo) (elapsed recent : Int)
    (hdot : (!skip && !m.includeDots && startsWithDotBase name) = false) :
    (hitOf false elapsed recent = true ↔ elapsed < recent) ∧
    (hitOf true elapsed recent = true ↔ recent ≤ elapsed) ∧
    (hitOf true elapsed recent = !hitOf false elapsed recent) ∧
    ((elapsed < recent) ↔ ¬ recent ≤ elapsed) ∧
    (m.dostat skip pre name fi ≠ [] ↔
      hitOf m.invert (m.now - fi.modTime) m.recent = true) := by
  refine ⟨by simp [hitOf], ?_, by simp [hitOf], by omega, ?_⟩
  · simp only [hitOf, Bool.not_eq_true', decide_eq_false_iff_not]
    simp [Int.not_lt]
  · cases hh : hitOf m.invert (m.now - fi.modTime) m.recent <;>
      simp [Matcher.dostat, hdot, hh]

/-- C3 (witness). -/
theorem classification_rule_witness :
    (⟨false, false, false, 5, 10⟩ : Matcher).dostat true "" "x" ⟨8, false⟩ ≠ [] :=
  ((classification_rule ⟨false, false, false, 5, 10⟩ true "" "x" ⟨8, false⟩ 2 5
    (by decide)).2.2.2.2).mpr (by decide)

/-! ## Claim C4 -/

/-- C4: dot-prefix filtering applies exactly to enumerated entries:
an explicit non-directory argument is classified with the dot check
skipped (and independently of `IncludeDots`), an explicit directory
argument is scanned whatever its own name, while enumerated children are
dropped when `IncludeDots` is off and their base name starts with a dot,
and classified under the ordinary rule otherwise. -/
theorem dot_filter_scope (m : Matcher) (st : StatFn) (dr : DirFn)
    (f dn n : String) (fi : FileInfo) (rest : List String) (b : Bool) :
    (st f = Except.ok fi → fi.isDir = false →
      m.Match st dr (f :: rest) = m.dostat true "" f fi ++ m.Match st dr rest) ∧
    (({ m with includeDots := b } : Matcher).dostat true dn n fi
      = m.dostat true dn n fi) ∧
    (st f = Except.ok fi → fi.isDir = true →
      m.Match st dr (f :: rest) = m.Readdir dr f ++ m.Match st dr rest) ∧
    (m.includeDots = false → startsWithDotBase n = true →
      m.dostat false dn n fi = []) ∧
    (m.includeDots = true → m.dostat false dn n fi = m.dostat true dn n fi) := by
  refine ⟨?_, ?_, ?_, ?_, ?_⟩
  · intro h1 h2
    simp [Matcher.Match, h1, h2]
  · simp [Matcher.dostat, hitOf]
  · intro h1 h2
    simp [Matcher.Match, h1, h2]
  · intro h1 h2
    simp [Matcher.dostat, h1, h2]
  · intro h1
    simp [Matcher.dostat, h1]

/-- C4 (witness): with `IncludeDots` off, an enumerated dot entry is
dropped. -/
theorem dot_filter_scope_witness :
    (⟨false, false, false, 86400000000000, 0⟩ : Matcher).dostat false "c" ".f"
      ⟨0, false⟩ = [] :=
  (dot_filter_scope ⟨false, false, false, 86400000000000, 0⟩
    (fun _ => Except.error "e") (fun _ => Except.error "e") "x" "c" ".f"
    ⟨0, false⟩ [] false).2.2.2.1 rfl (by decide)

/-! ## Claim C7 -/

/-- C7: every hit is emitted as `Clean(Join(pre, name))`, with `"/"`
appended iff the entry is a directory and `NoSlash` is off; explicit
top-level arguments are classified with the empty prefix, and enumerated
entries are displayed under the scanned directory's path as prefix. -/
theorem display_name_rule (m : Matcher) (skip : Bool) (pre name f dn : String)
    (fi : FileInfo) (st : StatFn) (dr : DirFn) (rest : List String) :
    (m.dostat skip pre name fi ≠ [] →
      m.dostat skip pre name fi =
        [Event.out (if fi.isDir && !m.noSlash then goClean (goJoin pre name) ++ "/"
          else goClean (goJoin pre name))]) ∧
    (st f = Except.ok fi → fi.isDir = false →
      m.Match st dr (f :: rest) = m.dostat true "" f fi ++ m.Match st dr rest) ∧
    (∀ s, Event.out s ∈ m.Readdir dr dn →
      ∃ (nm : String) (fi2 : FileInfo),
        s = (if fi2.isDir && !m.noSlash then goClean (goJoin dn nm) ++ "/"
          else goClean (goJoin dn nm))) := by
  refine ⟨?_, ?_, ?_⟩
  · intro hne
    rcases dostat_eq_nil_or m skip pre name fi with he | he
    · exact absurd he hne
    · rw [he]
      rfl
  · intro h1 h2
    simp [Matcher.Match, h1, h2]
  · intro s hs
    rw [Matcher.Readdir] at hs
    cases hdr : dr dn with
    | error e =>
      rw [hdr] at hs
      simp at hs
    | ok bs =>
      rw [hdr] at hs
      obtain ⟨batch, _, nm, fi2, _, hdisp⟩ := out_mem_readdirLoop hs
      exact ⟨nm, fi2, hdisp⟩

/-- C7 (witness): an explicit plain file hit is emitted as its own
cleaned name. -/
theorem display_name_rule_witness :
    (⟨false, false, false, 86400000000000, 0⟩ : Matcher).dostat true "" "b"
      ⟨0, false⟩ = [Event.out "b"] :=
  ((display_name_rule ⟨false, false, false, 86400000000000, 0⟩ true "" "b" "x" "dn"
    ⟨0, false⟩ (fun _ => Except.error "e") (fun _ => Except.error "e") []).1
    (by decide)).trans (by decide)

/-! ## Claim C8 -/

/-- C8: an explicit directory argument delegates to a one-level scan of
its children; the result does not depend on the directory's own metadata
(in particular its modification time is never classified), and every
emitted name comes from an entry of one of the directory's read batches,
displayed under the directory's path. -/
theorem explicit_dir_scans_children (m : Matcher) (st st2 : StatFn) (dr : DirFn)
    (d : String) (fi fi2 : FileInfo) (rest : List String)
    (h1 : st d = Except.ok fi) (h2 : fi.isDir = true)
    (h3 : st2 d = Except.ok fi2) (h4 : fi2.isDir = true) :
    (m.Match st dr (d :: rest) = m.Readdir dr d ++ m.Match st dr rest) ∧
    (m.Match st dr [d] = m.Match st2 dr [d]) ∧
    (∀ s, Event.out s ∈ m.Readdir dr d →
      ∃ bs, dr d = Except.ok bs ∧ ∃ batch, batch ∈ bs ∧
        ∃ nm fi3, (nm, fi3) ∈ batch.1 ∧
          s = (if fi3.isDir && !m.noSlash then goClean (goJoin d nm) ++ "/"
            else goClean (goJoin d nm))) := by
  refine ⟨by simp [Matcher.Match, h1, h2], by simp [Matcher.Match, h1, h2, h3, h4], ?_⟩
  intro s hs
  rw [Matcher.Readdir] at hs
  cases hdr : dr d with
  | error e =>
    rw [hdr] at hs
    simp at hs
  | ok bs =>
    rw [hdr] at hs
    obtain ⟨batch, hb, nm, fi3, hmem, hdisp⟩ := out_mem_readdirLoop hs
    exact ⟨bs, rfl, batch, hb, nm, fi3, hmem, hdisp⟩

/-- C8 (witness): scanning the explicit directory argument `c` containing
a single recent child `d` emits `c/d` only. -/
theorem explicit_dir_scans_children_witness :
    (⟨false, false, false, 86400000000000, 0⟩ : Matcher).Match
      (fun s => if s = "c" then Except.ok ⟨0, true⟩ else Except.error "no")
      (fun s => if s = "c" then Except.ok [([("d", ⟨0, false⟩)], ReadErr.eof)]
        else Except.error "no")
      ["c"] = [Event.out "c/d"] :=
  ((explicit_dir_scans_children ⟨false, false, false, 86400000000000, 0⟩
    (fun s => if s = "c" then Except.ok ⟨0, true⟩ else Except.error "no")
    (fun s => if s = "c" then Except.ok ⟨0, true⟩ else Except.error "no")
    (fun s => if s = "c" then Except.ok [([("d", ⟨0, false⟩)], ReadErr.eof)]
      else Except.error "no")
    "c" ⟨0, true⟩ ⟨0, true⟩ [] rfl rfl rfl rfl).1).trans (by decide)

/-! ## Claim C9 -/

/-- C9: per-path and per-directory failures are non-fatal and reported
exactly once at the point of occurrence: a stat failure logs once and the
batch continues; an open failure logs once and only that scan stops; a
mid-scan read failure logs once after the entries of its own batch are
classified; the clean end-of-entries signal is never logged; and
classification itself never logs. -/
theorem error_reporting (m : Matcher) (st : StatFn) (dr : DirFn)
    (f dn e : String) (rest : List String) (fis : List (String × FileInfo))
    (bs : List ReadBatch) (skip : Bool) (pre name : String) (fi : FileInfo) :
    (st f = Except.error e →
      m.Match st dr (f :: rest) = Event.log e :: m.Match st dr rest) ∧
    (dr dn = Except.error e → m.Readdir dr dn = [Event.log e]) ∧
    (m.readdirLoop dn ((fis, ReadErr.fail e) :: bs) =
      fis.flatMap (fun p => m.dostat false dn p.1 p.2) ++ [Event.log e]) ∧
    (m.readdirLoop dn ((fis, ReadErr.eof) :: bs) =
      fis.flatMap (fun p => m.dostat false dn p.1 p.2)) ∧
    (m.readdirLoop dn ((fis, ReadErr.ok) :: bs) =
      fis.flatMap (fun p => m.dostat false dn p.1 p.2) ++ m.readdirLoop dn bs) ∧
    (Event.log e ∉ m.dostat skip pre name fi) := by
  refine ⟨?_, ?_, ?_, ?_, ?_, log_not_mem_dostat⟩
  · intro h
    simp [Matcher.Match, h]
  · intro h
    simp [Matcher.Readdir, h]
  · simp [Matcher.readdirLoop]
  · simp [Matcher.readdirLoop]
  · simp [Matcher.readdirLoop]

/-- C9 (witness): a stat failure is logged once and the batch
continues. -/
theorem error_reporting_witness :
    (⟨false, false, false, 86400000000000, 0⟩ : Matcher).Match
      (fun _ => Except.error "boom") (fun _ => Except.error "boom") ["z"] =
      Event.log "boom" ::
        (⟨false, false, false, 86400000000000, 0⟩ : Matcher).Match
          (fun _ => Except.error "boom") (fun _ => Except.error "boom") [] :=
  (error_reporting ⟨false, false, false, 86400000000000, 0⟩
    (fun _ => Except.error "boom") (fun _ => Except.error "boom") "z" "dn" "boom"
    [] [] [] false "" "" ⟨0, false⟩).1 rfl

/-! ## Claim C10 -/

/-- C10: `filepath.Base` never returns an empty string (the base of the
empty path is `"."`), so reading the first character of the base in the
dot check is always defined: the check's value does not depend on the
fallback character, and classification is total. -/
theorem base_never_empty (name : String) (c : Char) :
    goBase name ≠ "" ∧ goBase "" = "." ∧
    ((goBase name).toList.headD c == '.') = startsWithDotBase name := by
  refine ⟨?_, by decide, ?_⟩
  · intro h
    have hne := goBase_toList_ne_nil name
    rw [h] at hne
    exact hne rfl
  · rw [startsWithDotBase]
    rcases hl : (goBase name).toList with _ | ⟨a, t⟩
    · exact absurd hl (goBase_toList_ne_nil name)
    · simp [hl]

end Recent
